import Mathlib

/- Formal model of the archive assembly pipeline of src/ALAS_Logs_Archive.py.
The Python program is shallowly embedded: file contents are lists of bytes
(`List Nat`), the directory holding the archives is an association list from
path names to ZIP member lists, compression algorithms are abstract functions,
and every fallible I/O operation is driven by an explicit fault description so
that the exception paths of the source become `Except` values. -/

namespace ALASLogsArchive

/-- Result of `compress_file` (line 363): `(arcname, compressed bytes, original size)`. -/
structure CompressedUnit where
  arcname : String
  payload : List Nat
  originalSize : Nat
  deriving DecidableEq

/-- Decidable equality for `Except` results (not provided by the library). -/
def exceptDecEq {e a : Type} [DecidableEq e] [DecidableEq a] :
    (x y : Except e a) → Decidable (x = y)
  | Except.ok x, Except.ok y =>
    if h : x = y then isTrue (by rw [h])
    else isFalse (by intro hc; injection hc with h2; exact h h2)
  | Except.ok _, Except.error _ => isFalse (by intro hc; exact Except.noConfusion hc)
  | Except.error _, Except.ok _ => isFalse (by intro hc; exact Except.noConfusion hc)
  | Except.error x, Except.error y =>
    if h : x = y then isTrue (by rw [h])
    else isFalse (by intro hc; injection hc with h2; exact h h2)

instance {e a : Type} [DecidableEq e] [DecidableEq a] : DecidableEq (Except e a) :=
  exceptDecEq

/-- `zipfile.ZIP_STORED`. -/
def ZIP_STORED : Nat := 0

/-- The fields of `zipfile.ZipInfo` that the program sets explicitly
(lines 484-488 and 502-506). -/
structure ZipInfo where
  filename : String
  date_time : List Nat
  file_size : Nat
  compress_size : Nat
  compress_type : Nat
  deriving DecidableEq

/-- One member of a ZIP container: its metadata plus the payload bytes that
`zipf.writestr(zinfo, compressed_data)` stores. -/
structure ZipMember where
  info : ZipInfo
  payload : List Nat
  deriving DecidableEq

/-- Path names are modelled as character lists (all paths live in one
directory, so a path is just a file name). -/
abbrev PathName := List Char

/-- The file system state the pipeline touches: the archive directory
(an association list from path to ZIP content) and the set of source files
that currently exist. -/
structure FileSystem where
  archives : List (PathName × List ZipMember)
  sources : List String
  deriving DecidableEq

/-- Reading the ZIP container at `p`, `none` when no file exists there. -/
def FileSystem.getArchive (fs : FileSystem) (p : PathName) : Option (List ZipMember) :=
  (fs.archives.find? fun e => decide (e.1 = p)).map fun e => e.2

/-- Writing a ZIP container at `p` (create or truncate). -/
def FileSystem.setArchive (fs : FileSystem) (p : PathName) (mems : List ZipMember) : FileSystem :=
  { fs with archives := (p, mems) :: fs.archives.filter fun e => decide (e.1 ≠ p) }

/-- `os.remove` for a source file. -/
def FileSystem.removeSource (fs : FileSystem) (p : String) : FileSystem :=
  { fs with sources := fs.sources.filter fun q => decide (q ≠ p) }

@[simp] theorem sources_setArchive (fs : FileSystem) (p : PathName) (mems : List ZipMember) :
    (fs.setArchive p mems).sources = fs.sources := rfl

@[simp] theorem archives_removeSource (fs : FileSystem) (p : String) :
    (fs.removeSource p).archives = fs.archives := rfl

@[simp] theorem getArchive_setArchive_same (fs : FileSystem) (p : PathName)
    (mems : List ZipMember) : (fs.setArchive p mems).getArchive p = some mems := by
  simp [FileSystem.getArchive, FileSystem.setArchive, List.find?]

theorem find?_filter_ne {β : Type} (q p : PathName) (hqp : q ≠ p)
    (l : List (PathName × β)) :
    (l.filter fun e => decide (e.1 ≠ p)).find? (fun e => decide (e.1 = q))
      = l.find? fun e => decide (e.1 = q) := by
  induction l with
  | nil => rfl
  | cons a t ih =>
    rw [List.filter_cons]
    by_cases hap : a.1 = p
    · have haq : decide (a.1 = q) = false := by
        rw [hap]; exact decide_eq_false fun h => hqp h.symm
      have h1 : decide (a.1 ≠ p) = false := by simp [hap]
      rw [h1]
      simp only [Bool.false_eq_true, if_false, ih, List.find?_cons, haq]
    · have h1 : decide (a.1 ≠ p) = true := by simp [hap]
      rw [h1]
      simp only [if_true, List.find?_cons]
      by_cases haq : a.1 = q
      · have h2 : decide (a.1 = q) = true := by simp [haq]
        rw [h2]
      · have h2 : decide (a.1 = q) = false := decide_eq_false haq
        rw [h2]
        exact ih

theorem getArchive_setArchive_ne (fs : FileSystem) (p q : PathName)
    (mems : List ZipMember) (hqp : q ≠ p) :
    (fs.setArchive p mems).getArchive q = fs.getArchive q := by
  have hpq : decide (p = q) = false := decide_eq_false fun h => hqp h.symm
  unfold FileSystem.getArchive FileSystem.setArchive
  rw [List.find?_cons]
  simp only [hpq, find?_filter_ne q p hqp]

/-- Python `s.lower()` (per-character lowercasing, as for the ASCII
configuration strings this program compares). -/
def pyLower (s : String) : String := String.mk (s.toList.map Char.toLower)

/-- Validation helper from line 624: `1 <= level <= 9`. -/
def validate_compression_level (level : Int) : Bool :=
  decide (1 ≤ level ∧ level ≤ 9)

/-- Validation helper from line 636: `algorithm.lower() in ["lzma", "bzip2"]`. -/
def validate_compression_algorithm (algorithm : String) : Bool :=
  pyLower algorithm == "lzma" || pyLower algorithm == "bzip2"

/-- Validation helper from line 648: `mode.lower() in ["scroll", "incremental"]`. -/
def validate_archive_mode (mode : String) : Bool :=
  pyLower mode == "scroll" || pyLower mode == "incremental"

/-- `compress_file` (lines 363-388) with the two compressors abstracted:
it reads the file bytes (`data`), records `original_size = len(data)`,
selects the compressor by algorithm name, and raises on an unsupported name.
The returned arcname is the file's base name; the model identifies the path
with its base name since the selection step lists one flat directory. -/
def compress_file (compression_algorithm : String)
    (lzmaCompress bz2Compress : List Nat → List Nat)
    (file_path : String) (data : List Nat) : Except String CompressedUnit :=
  let original_size := data.length
  if pyLower compression_algorithm == "lzma" then
    Except.ok ⟨file_path, lzmaCompress data, original_size⟩
  else if pyLower compression_algorithm == "bzip2" then
    Except.ok ⟨file_path, bz2Compress data, original_size⟩
  else
    Except.error ("不支持的压缩算法: " ++ compression_algorithm)

/-- The compressor that `compress_file` applies for a given algorithm name. -/
def compressorFor (compression_algorithm : String)
    (lzmaCompress bz2Compress : List Nat → List Nat) : List Nat → List Nat :=
  if pyLower compression_algorithm == "lzma" then lzmaCompress else bz2Compress

/-- The worker-pool collection loop (lines 417-431): one entry per completed
future, in completion order; a successful result is appended to
`compressed_results`, a failure is logged and skipped. -/
def collect_results (completions : List (String × Except String CompressedUnit)) :
    List CompressedUnit :=
  completions.foldl
    (fun acc pc =>
      match pc.2 with
      | Except.ok result => acc ++ [result]
      | Except.error _ => acc)
    []

theorem collect_results_eq_filterMap
    (completions : List (String × Except String CompressedUnit)) :
    collect_results completions = completions.filterMap fun pc => pc.2.toOption := by
  have aux : ∀ (l : List (String × Except String CompressedUnit))
      (acc : List CompressedUnit),
      l.foldl (fun acc pc =>
          match pc.2 with
          | Except.ok result => acc ++ [result]
          | Except.error _ => acc) acc
        = acc ++ l.filterMap fun pc => pc.2.toOption := by
    intro l
    induction l with
    | nil => intro acc; simp
    | cons a t ih =>
      intro acc
      match ha : a.2 with
      | Except.ok u => simp [List.filterMap_cons, ha, ih, Except.toOption]
      | Except.error e => simp [List.filterMap_cons, ha, ih, Except.toOption]
  simpa using aux completions []

/-- Sum of the `original_size` components (line 435). -/
def sumOriginal (l : List CompressedUnit) : Nat :=
  (l.map fun u => u.originalSize).foldl (· + ·) 0

/-- Sum of the compressed payload lengths (line 515). -/
def sumCompressed (l : List CompressedUnit) : Nat :=
  (l.map fun u => u.payload.length).foldl (· + ·) 0

/-- The value a Python `for arcname, compressed_data, original_size in l:` loop
leaves in `original_size` after running: the last element's size, or the
previous value when the loop body never ran. -/
def lastOriginalOr (l : List CompressedUnit) (dflt : Nat) : Nat :=
  match l.getLast? with
  | some u => u.originalSize
  | none => dflt

/-- Python `s.startswith(pat)` on character lists. -/
def leadsWith : PathName → PathName → Bool
  | [], _ => true
  | _ :: _, [] => false
  | a :: as, b :: bs => (a == b) && leadsWith as bs

/-- Python `s.endswith(pat)` on character lists. -/
def endsWithL (pat s : PathName) : Bool :=
  leadsWith pat.reverse s.reverse

/-- Python `pat in s` (substring test) on character lists. -/
def containsSeq (pat : PathName) : PathName → Bool
  | [] => leadsWith pat []
  | c :: cs => leadsWith pat (c :: cs) || containsSeq pat cs

/-- Python `s.replace(pat, rep)` on character lists: replace every
non-overlapping occurrence, scanning left to right.  The fuel argument is the
length of the remaining text, which always suffices. -/
def replaceAllAux (pat rep : PathName) : Nat → PathName → PathName
  | _, [] => []
  | 0, l => l
  | fuel + 1, c :: cs =>
    if !pat.isEmpty && leadsWith pat (c :: cs) then
      rep ++ replaceAllAux pat rep fuel (cs.drop (pat.length - 1))
    else
      c :: replaceAllAux pat rep fuel cs

def replaceAll (pat rep s : PathName) : PathName :=
  replaceAllAux pat rep s.length s

/-- The digit character for `d` (`0` ↦ `'0'`, …, `9` ↦ `'9'`). -/
def digitChar (d : Nat) : Char := Char.ofNat (48 + d)

/-- Python decimal formatting `f"{n}"`, big-endian digits, written with fuel
so that it is structurally recursive; `decRep` passes fuel `n`, which always
suffices because the value shrinks by a factor of ten per step. -/
def decRepAux : Nat → Nat → List Char → List Char
  | 0, n, acc => digitChar (n % 10) :: acc
  | fuel + 1, n, acc =>
    if n < 10 then digitChar n :: acc
    else decRepAux fuel (n / 10) (digitChar (n % 10) :: acc)

def decRep (n : Nat) : List Char :=
  decRepAux n n []

/-- Decimal value of a digit string; a left inverse of `decRep` used to show
that distinct counters yield distinct candidate file names. -/
def decVal : List Char → Nat
  | [] => 0
  | c :: cs => (c.toNat - 48) * 10 ^ cs.length + decVal cs

theorem digitChar_toNat (d : Nat) (h : d < 10) : (digitChar d).toNat = 48 + d := by
  interval_cases d <;> decide

theorem digitChar_ne_dot (d : Nat) (h : d < 10) : digitChar d ≠ '.' := by
  interval_cases d <;> decide

theorem decVal_decRepAux (fuel : Nat) :
    ∀ (n : Nat) (acc : List Char), n < 10 ^ (fuel + 1) →
      decVal (decRepAux fuel n acc) = n * 10 ^ acc.length + decVal acc := by
  induction fuel with
  | zero =>
    intro n acc hn
    have hn10 : n < 10 := by simpa using hn
    have hmod : n % 10 = n := Nat.mod_eq_of_lt hn10
    simp only [decRepAux, decVal, hmod, digitChar_toNat n hn10]
    have h48 : 48 + n - 48 = n := by omega
    rw [h48]
  | succ fuel ih =>
    intro n acc hn
    by_cases h10 : n < 10
    · simp only [decRepAux, h10, if_true, decVal, digitChar_toNat n h10]
      have h48 : 48 + n - 48 = n := by omega
      rw [h48]
    · have h0 : (0 : Nat) < 10 := by norm_num
      have hrec : n / 10 < 10 ^ (fuel + 1) := by
        rw [Nat.div_lt_iff_lt_mul h0]
        calc n < 10 ^ (fuel + 1 + 1) := hn
          _ = 10 ^ (fuel + 1) * 10 := by rw [pow_succ]
      have hmod : n % 10 < 10 := Nat.mod_lt _ h0
      simp only [decRepAux, h10, if_false]
      rw [ih (n / 10) (digitChar (n % 10) :: acc) hrec]
      simp only [decVal, List.length_cons, digitChar_toNat _ hmod]
      have h48 : 48 + n % 10 - 48 = n % 10 := by omega
      rw [h48]
      have hdm : n / 10 * 10 + n % 10 = n := by omega
      have key : n / 10 * 10 ^ (acc.length + 1) + n % 10 * 10 ^ acc.length
          = n * 10 ^ acc.length := by
        calc n / 10 * 10 ^ (acc.length + 1) + n % 10 * 10 ^ acc.length
            = (n / 10 * 10 + n % 10) * 10 ^ acc.length := by ring
          _ = n * 10 ^ acc.length := by rw [hdm]
      rw [← add_assoc, key]

theorem decVal_decRep (n : Nat) : decVal (decRep n) = n := by
  have hfuel : n < 10 ^ (n + 1) := by
    calc n < 10 ^ n := Nat.lt_pow_self (by norm_num) n
      _ ≤ 10 ^ (n + 1) := Nat.pow_le_pow_right (by norm_num) (Nat.le_succ n)
  simpa [decVal] using decVal_decRepAux n n [] hfuel

theorem decRep_injective {a b : Nat} (h : decRep a = decRep b) : a = b := by
  have ha := decVal_decRep a
  have hb := decVal_decRep b
  rw [← ha, ← hb, h]

theorem dot_notMem_decRepAux (fuel : Nat) :
    ∀ (n : Nat) (acc : List Char), '.' ∉ acc → '.' ∉ decRepAux fuel n acc := by
  induction fuel with
  | zero =>
    intro n acc hacc
    simp only [decRepAux, List.mem_cons, not_or]
    exact ⟨fun h => digitChar_ne_dot (n % 10) (Nat.mod_lt _ (by norm_num)) h.symm, hacc⟩
  | succ fuel ih =>
    intro n acc hacc
    by_cases h10 : n < 10
    · simp only [decRepAux, h10, if_true, List.mem_cons, not_or]
      exact ⟨fun h => digitChar_ne_dot n h10 h.symm, hacc⟩
    · simp only [decRepAux, h10, if_false]
      refine ih (n / 10) _ ?_
      simp only [List.mem_cons, not_or]
      exact ⟨fun h => digitChar_ne_dot (n % 10) (Nat.mod_lt _ (by norm_num)) h.symm, hacc⟩

theorem dot_notMem_decRep (n : Nat) : '.' ∉ decRep n :=
  dot_notMem_decRepAux n n [] (by simp)

/-- Python `s.rsplit(".", 1)` for the strings used by `create_archive`, which
always contain a dot (a `.zip` suffix was appended first): the part before the
last dot and the part after it.  For a dot-free string Python would raise on
the `[1]` index; the model returns `(s, [])`, a case the naming code never
reaches. -/
def rsplitDot (s : PathName) : PathName × PathName :=
  match s.reverse.dropWhile (fun c => !(c == '.')) with
  | [] => (s, [])
  | _ :: rest => (rest.reverse, (s.reverse.takeWhile (fun c => !(c == '.'))).reverse)

def zipExtL : PathName := ".zip".toList

/-- Append `.zip` when the name does not already end with it (lines 574/586). -/
def withZipExt (name : PathName) : PathName :=
  if endsWithL zipExtL name then name else name ++ zipExtL

def datePlaceholder : PathName := "\x7bdate\x7d".toList

/-- The Scroll-mode starting file name (lines 584-596): append `.zip` when
missing, then substitute `\x7bdate\x7d` when the template contains it, else
prefix the date to the stem. -/
def scroll_base_name (fmt archiveDate : PathName) : PathName :=
  let base_name := withZipExt fmt
  if containsSeq datePlaceholder base_name then
    replaceAll datePlaceholder archiveDate base_name
  else
    let se := rsplitDot base_name
    archiveDate ++ '_' :: (se.1 ++ '.' :: se.2)

/-- The candidate file name tried with counter `k` in the collision loop
(lines 601-608): the original name for `k = 0`, and
`f"{name_without_ext}_{counter}.{ext}"` of the original name for `k ≥ 1`. -/
def scroll_candidate (original : PathName) : Nat → PathName
  | 0 => original
  | k + 1 => (rsplitDot original).1 ++ '_' :: (decRep (k + 1) ++ '.' :: (rsplitDot original).2)

/-- The `while os.path.exists(archive_path)` loop of lines 603-608, written
with fuel; `resolve_scroll_name` passes fuel `|existing| + 2`, which provably
suffices because at most `|existing|` candidates can be taken. -/
def find_free_name (existing : List PathName) (original : PathName) : Nat → Nat → PathName
  | 0, k => scroll_candidate original k
  | fuel + 1, k =>
    if scroll_candidate original k ∈ existing then find_free_name existing original fuel (k + 1)
    else scroll_candidate original k

/-- The full Scroll-mode naming algorithm (lines 582-608) given the set of
file names already present in the archive folder. -/
def resolve_scroll_name (fmt archiveDate : PathName) (existing : List PathName) : PathName :=
  find_free_name existing (scroll_base_name fmt archiveDate) (existing.length + 2) 0

theorem noDot_append_cancel :
    ∀ (A B E : List Char), '.' ∉ A → '.' ∉ B → A ++ '.' :: E = B ++ '.' :: E → A = B := by
  intro A
  induction A with
  | nil =>
    intro B E _ hB h
    cases B with
    | nil => rfl
    | cons b bs =>
      exfalso
      simp only [List.nil_append, List.cons_append, List.cons.injEq] at h
      exact hB (by rw [← h.1]; exact List.mem_cons_self '.' bs)
  | cons a as ih =>
    intro B E hA hB h
    cases B with
    | nil =>
      exfalso
      simp only [List.cons_append, List.nil_append, List.cons.injEq] at h
      exact hA (by rw [h.1]; exact List.mem_cons_self '.' _)
    | cons b bs =>
      simp only [List.cons_append, List.cons.injEq] at h
      have hA' : '.' ∉ as := fun hm => hA (List.mem_cons_of_mem a hm)
      have hB' : '.' ∉ bs := fun hm => hB (List.mem_cons_of_mem b hm)
      rw [h.1, ih bs E hA' hB' h.2]

theorem scroll_candidate_injective (original : PathName) {j k : Nat}
    (h : scroll_candidate original (j + 1) = scroll_candidate original (k + 1)) :
    j = k := by
  unfold scroll_candidate at h
  have h1 := List.append_cancel_left h
  simp only [List.cons.injEq, true_and] at h1
  have h2 : decRep (j + 1) ++ '.' :: (rsplitDot original).2
      = decRep (k + 1) ++ '.' :: (rsplitDot original).2 := h1
  have h3 := noDot_append_cancel _ _ _ (dot_notMem_decRep (j + 1)) (dot_notMem_decRep (k + 1)) h2
  have h4 := decRep_injective h3
  omega

theorem exists_free_candidate (existing : List PathName) (original : PathName) :
    ∃ j, j < existing.length + 2 ∧ scroll_candidate original j ∉ existing := by
  by_contra hcon
  push_neg at hcon
  have hmaps : ∀ a ∈ Finset.range (existing.length + 1),
      scroll_candidate original (a + 1) ∈ existing.toFinset := by
    intro a ha
    rw [List.mem_toFinset]
    exact hcon (a + 1) (by simp at ha; omega)
  have hinj : Set.InjOn (fun a => scroll_candidate original (a + 1))
      (Finset.range (existing.length + 1)) := by
    intro x _ y _ hxy
    exact scroll_candidate_injective original hxy
  have hcard := Finset.card_le_card_of_injOn _ hmaps hinj
  have htf := existing.toFinset_card_le
  simp only [Finset.card_range] at hcard
  omega

theorem find_free_name_spec (existing : List PathName) (original : PathName) :
    ∀ (fuel k : Nat), (∃ j, j < fuel ∧ scroll_candidate original (k + j) ∉ existing) →
      ∃ m, find_free_name existing original fuel k = scroll_candidate original m
        ∧ scroll_candidate original m ∉ existing
        ∧ k ≤ m
        ∧ ∀ i, k ≤ i → i < m → scroll_candidate original i ∈ existing := by
  intro fuel
  induction fuel with
  | zero =>
    intro k h
    obtain ⟨j, hj, _⟩ := h
    omega
  | succ fuel ih =>
    intro k h
    by_cases hk : scroll_candidate original k ∈ existing
    · obtain ⟨j, hj, hfree⟩ := h
      have hj0 : j ≠ 0 := by
        intro h0
        rw [h0, Nat.add_zero] at hfree
        exact hfree hk
      have hnext : ∃ j', j' < fuel ∧ scroll_candidate original (k + 1 + j') ∉ existing := by
        refine ⟨j - 1, by omega, ?_⟩
        have : k + 1 + (j - 1) = k + j := by omega
        rw [this]
        exact hfree
      obtain ⟨m, hm1, hm2, hm3, hm4⟩ := ih (k + 1) hnext
      refine ⟨m, ?_, hm2, by omega, ?_⟩
      · simp only [find_free_name, hk, if_true]
        exact hm1
      · intro i hki him
        by_cases hik : i = k
        · rw [hik]; exact hk
        · exact hm4 i (by omega) him
    · exact ⟨k, by simp [find_free_name, hk], hk, le_refl k, fun i h1 h2 => by omega⟩

/-- Fault description for one run: which of the fallible container operations
raise, and which source-file deletions raise.  Reading bytes of a ZIP member,
`os.path.exists` and `os.path.getsize` on an existing file never raise in the
model. -/
structure Faults where
  indexReadFails : Bool
  dupOpenFails : Bool
  primaryOpenFails : Bool
  deleteFails : List String
  deriving DecidableEq

/-- The exceptions that can escape `create_archive_generic`. -/
inductive ArchErr where
  | dupWrite
  | primaryWrite
  | sizeQuery
  deriving DecidableEq

/-- The figures `create_archive_generic` reports (lines 512-527, 541).
In Incremental mode the first two fields are the added original/compressed
sums; in Scroll mode they are the final value of the `original_size` variable
and `os.path.getsize(archive_path)`. -/
structure RunStats where
  reportedOriginalSize : Nat
  reportedCompressedSize : Nat
  compressionRatioPct : Rat
  deletedCount : Nat
  deriving DecidableEq

/-- Python `s.endswith(suffix)` on strings, via character lists. -/
def pyEndsWith (suffix s : String) : Bool := endsWithL suffix.toList s.toList

/-- The member names read from an existing container (lines 448-452):
all `infolist()` entries whose name does not end in `/`. -/
def existingNamesOf (mems : List ZipMember) : List String :=
  (mems.filter fun m => !(pyEndsWith "/" m.info.filename)).map fun m => m.info.filename

/-- The `ZipInfo` as the program constructs it for one unit (lines 485-488 and
503-506): STORED entry, `file_size` set to the pre-compression size and
`compress_size` to the payload length. -/
def programZipInfo (localtime6 : List Nat) (u : CompressedUnit) : ZipInfo :=
  { filename := u.arcname
    date_time := localtime6
    file_size := u.originalSize
    compress_size := u.payload.length
    compress_type := ZIP_STORED }

/-- CPython `ZipFile.writestr(zinfo, data)` for a STORED entry: before writing
it unconditionally executes `zinfo.file_size = len(data)`, and
`_ZipWriteFile.close()` then sets `compress_size` and `file_size` to the
number of bytes written — so the stored member carries the payload length in
both size fields, regardless of the sizes the caller placed in the
`ZipInfo`. -/
def writestr (zinfo : ZipInfo) (data : List Nat) : ZipMember :=
  { info := { zinfo with file_size := data.length
                         compress_size := data.length }
    payload := data }

/-- The member actually stored for one unit: the `ZipInfo` built on lines
485-488/503-506 passed through `writestr` (lines 489/507), whose overwriting
of the size fields survives into the container. -/
def mkZipMember (localtime6 : List Nat) (u : CompressedUnit) : ZipMember :=
  writestr (programZipInfo localtime6 u) u.payload

/-- Strip a trailing `.zip` (lines 477-478). -/
def stripZipExt (p : PathName) : PathName :=
  if endsWithL zipExtL p then p.take (p.length - 4) else p

def dupPrefixL : PathName := "重复文件_".toList

/-- The duplicates-container name of line 479:
`f"重复文件_\x7bbase_name\x7d_\x7btimestamp\x7d.zip"` next to the primary. -/
def dupPathOf (archivePath timestamp : PathName) : PathName :=
  dupPrefixL ++ stripZipExt archivePath ++ '_' :: (timestamp ++ zipExtL)

/-- The expression `(1 - compressedSize / originalSize) * 100 if originalSize > 0
else 0` used on lines 516 and 525 (percent, rational arithmetic in the model). -/
def ratioPctOf (compressedSize originalSize : Nat) : Rat :=
  if 0 < originalSize then (1 - (compressedSize : Rat) / (originalSize : Rat)) * 100
  else 0

/-- The post-write size query and summary-statistics step (lines 510-527).
`os.path.getsize(archive_path)` raises when no file exists at the path. -/
def sizeAndStats (zipSize : List ZipMember → Nat) (archivePath : PathName)
    (incremental_mode : Bool) (shadowedOriginal : Nat)
    (files_to_add : List CompressedUnit) (fs : FileSystem) :
    FileSystem × Except ArchErr RunStats :=
  match fs.getArchive archivePath with
  | none => (fs, Except.error ArchErr.sizeQuery)
  | some mems =>
    let final_size := zipSize mems
    if incremental_mode then
      let added_original_size := sumOriginal files_to_add
      let added_compressed_size := sumCompressed files_to_add
      (fs, Except.ok ⟨added_original_size, added_compressed_size,
        ratioPctOf added_compressed_size added_original_size, 0⟩)
    else
      (fs, Except.ok ⟨shadowedOriginal, final_size,
        ratioPctOf final_size shadowedOriginal, 0⟩)

/-- Lines 497-507 followed by the size query: open the primary container when
`files_to_add` is non-empty (append mode exactly when an Incremental run found
an existing container, whose members are then `appendTo`), write every unit as
a STORED member, then fall through to `sizeAndStats`. -/
def writeAndReport (zipSize : List ZipMember → Nat) (localtime6 : List Nat)
    (archivePath : PathName) (incremental_mode : Bool)
    (appendTo : Option (List ZipMember)) (primaryOpenFails : Bool)
    (shadowedOriginal : Nat) (files_to_add : List CompressedUnit)
    (fs : FileSystem) : FileSystem × Except ArchErr RunStats :=
  if files_to_add = [] then
    sizeAndStats zipSize archivePath incremental_mode shadowedOriginal files_to_add fs
  else if primaryOpenFails then
    (fs, Except.error ArchErr.primaryWrite)
  else
    let newMembers := files_to_add.map (mkZipMember localtime6)
    let content :=
      match appendTo with
      | some mems => mems ++ newMembers
      | none => newMembers
    sizeAndStats zipSize archivePath incremental_mode shadowedOriginal files_to_add
      (fs.setArchive archivePath content)

/-- The archive-writing step of `create_archive_generic` (lines 435-527),
from the collected `compressed_results` to either run statistics or the
exception that aborted the write.  When Incremental mode finds an existing
container it reads the member-name index (soft-failing to the empty set),
partitions the units into new and duplicate ones, writes the duplicates to a
fresh timestamped side container, and appends only the new units; otherwise
it writes every unit to a fresh container.  The `shadowedOriginal` argument
threads the final value of the Python `original_size` variable, which the
tuple-unpacking `for` loops overwrite. -/
def writePhase (zipSize : List ZipMember → Nat) (localtime6 : List Nat)
    (archivePath timestamp : PathName) (incremental_mode : Bool) (f : Faults)
    (compressed_results : List CompressedUnit) (fs : FileSystem) :
    FileSystem × Except ArchErr RunStats :=
  let original_size := sumOriginal compressed_results
  match incremental_mode, fs.getArchive archivePath with
  | true, some mems =>
    let existing_files := if f.indexReadFails then ([] : List String) else existingNamesOf mems
    let new_files := compressed_results.filter fun u => decide (u.arcname ∉ existing_files)
    let duplicate_files := compressed_results.filter fun u => decide (u.arcname ∈ existing_files)
    let shadowed :=
      lastOriginalOr new_files
        (lastOriginalOr duplicate_files (lastOriginalOr compressed_results original_size))
    if duplicate_files = [] then
      writeAndReport zipSize localtime6 archivePath true (some mems) f.primaryOpenFails
        shadowed new_files fs
    else if f.dupOpenFails then
      (fs, Except.error ArchErr.dupWrite)
    else
      let fs1 := fs.setArchive (dupPathOf archivePath timestamp)
        (duplicate_files.map (mkZipMember localtime6))
      writeAndReport zipSize localtime6 archivePath true (some mems) f.primaryOpenFails
        shadowed new_files fs1
  | _, _ =>
    let shadowed := lastOriginalOr compressed_results original_size
    writeAndReport zipSize localtime6 archivePath incremental_mode none f.primaryOpenFails
      shadowed compressed_results fs

/-- One iteration of the source-file deletion loop (lines 530-539): skip a
path that no longer exists, then `os.remove` it; a failing removal is logged
and the loop continues with the next path. -/
def cleanup_step (deleteFails : List String) (acc : FileSystem × Nat)
    (file_path : String) : FileSystem × Nat :=
  if file_path ∈ acc.1.sources then
    if file_path ∈ deleteFails then acc
    else (acc.1.removeSource file_path, acc.2 + 1)
  else acc

/-- The source-file deletion loop (lines 529-541) over the original input
list, counting successful deletions. -/
def cleanup_files (deleteFails : List String) (files : List String) (fs : FileSystem) :
    FileSystem × Nat :=
  files.foldl (cleanup_step deleteFails) (fs, 0)

/-- `create_archive_generic` (lines 391-541): collect the worker-pool
completions, run the archive-writing step, and only when it returned without
an exception run the deletion loop over the original `files` list. -/
def create_archive_generic (zipSize : List ZipMember → Nat) (localtime6 : List Nat)
    (archivePath timestamp : PathName) (incremental_mode : Bool) (f : Faults)
    (files : List String)
    (completions : List (String × Except String CompressedUnit))
    (fs : FileSystem) : FileSystem × Except ArchErr RunStats :=
  let compressed_results := collect_results completions
  match writePhase zipSize localtime6 archivePath timestamp incremental_mode f
      compressed_results fs with
  | (fs1, Except.error e) => (fs1, Except.error e)
  | (fs1, Except.ok stats) =>
    let cleaned := cleanup_files f.deleteFails files fs1
    (cleaned.1, Except.ok { stats with deletedCount := cleaned.2 })

/-- The archive path `create_archive` resolves (lines 569-608): the verbatim
(zip-suffixed) configured name in Incremental mode, the collision-free dated
name in Scroll mode. -/
def resolvedPathOf (fmt archiveDate : PathName) (archive_mode : String)
    (fs : FileSystem) : PathName :=
  if archive_mode == "incremental" then withZipExt fmt
  else resolve_scroll_name fmt archiveDate (fs.archives.map fun e => e.1)

/-- `create_archive` (lines 544-621): nothing to do on an empty file list,
otherwise resolve the archive path for the mode and call
`create_archive_generic`; an exception from it is logged and re-raised
unchanged. -/
def create_archive (zipSize : List ZipMember → Nat) (localtime6 : List Nat)
    (files : List String) (fmt archiveDate timestamp : PathName)
    (archive_mode : String) (f : Faults)
    (completions : List (String × Except String CompressedUnit))
    (fs : FileSystem) : FileSystem × Except ArchErr (Option RunStats) :=
  if files = [] then (fs, Except.ok none)
  else
    let incremental_mode := archive_mode == "incremental"
    let archivePath := resolvedPathOf fmt archiveDate archive_mode fs
    match create_archive_generic zipSize localtime6 archivePath timestamp incremental_mode
        f files completions fs with
    | (fs1, Except.error e) => (fs1, Except.error e)
    | (fs1, Except.ok stats) => (fs1, Except.ok (some stats))

/-- The file-system effects of one `main` run that the validation stage can
be observed against: whether logger setup created a log file, and whether
the three post-validation steps (gui-file deletion, error-folder removal,
archiving) were reached. -/
structure MainFx where
  logFileCreated : Bool
  guiFilesDeleted : Bool
  errorFolderDeleted : Bool
  archiveStepReached : Bool
  deriving DecidableEq

/-- The validation stage of `main` (lines 694-737), entered right after
`setup_logger` ran — which already created a log file when `save_logs` is
enabled.  The four checks exit with `sys.exit(1)` in source order, and only
when all pass do `delete_gui_files`, `delete_error_folder` and
`create_archive` run. -/
def main_validation_model (compression_algorithm : String) (compression_level : Int)
    (archive_mode : String) (max_workers : Int) (save_logs : Bool) :
    MainFx × Except Nat Unit :=
  let fx0 : MainFx := ⟨save_logs, false, false, false⟩
  if !validate_compression_algorithm compression_algorithm then (fx0, Except.error 1)
  else if !validate_compression_level compression_level then (fx0, Except.error 1)
  else if !validate_archive_mode archive_mode then (fx0, Except.error 1)
  else if max_workers < 1 then (fx0, Except.error 1)
  else
    ({ fx0 with guiFilesDeleted := true
                errorFolderDeleted := true
                archiveStepReached := true },
      Except.ok ())

theorem sizeAndStats_fst (zipSize : List ZipMember → Nat) (archivePath : PathName)
    (incremental_mode : Bool) (shadowedOriginal : Nat)
    (files_to_add : List CompressedUnit) (fs : FileSystem) :
    (sizeAndStats zipSize archivePath incremental_mode shadowedOriginal
      files_to_add fs).1 = fs := by
  unfold sizeAndStats
  split
  · rfl
  · split <;> rfl

theorem writeAndReport_fst_sources (zipSize : List ZipMember → Nat)
    (localtime6 : List Nat) (archivePath : PathName) (incremental_mode : Bool)
    (appendTo : Option (List ZipMember)) (primaryOpenFails : Bool)
    (shadowedOriginal : Nat) (files_to_add : List CompressedUnit) (fs : FileSystem) :
    (writeAndReport zipSize localtime6 archivePath incremental_mode appendTo
      primaryOpenFails shadowedOriginal files_to_add fs).1.sources = fs.sources := by
  unfold writeAndReport
  split
  · rw [sizeAndStats_fst]
  · split
    · rfl
    · rw [sizeAndStats_fst, sources_setArchive]

theorem writePhase_fst_sources (zipSize : List ZipMember → Nat)
    (localtime6 : List Nat) (archivePath timestamp : PathName)
    (incremental_mode : Bool) (f : Faults)
    (compressed_results : List CompressedUnit) (fs : FileSystem) :
    (writePhase zipSize localtime6 archivePath timestamp incremental_mode f
      compressed_results fs).1.sources = fs.sources := by
  simp only [writePhase]
  repeat' split
  all_goals simp [writeAndReport_fst_sources]

@[simp] theorem mem_removeSource (fs : FileSystem) (p q : String) :
    q ∈ (fs.removeSource p).sources ↔ q ∈ fs.sources ∧ q ≠ p := by
  simp [FileSystem.removeSource, List.mem_filter]

theorem cleanup_fold_mem (deleteFails : List String) :
    ∀ (files : List String) (fs : FileSystem) (n : Nat) (q : String),
      q ∈ (files.foldl (cleanup_step deleteFails) (fs, n)).1.sources ↔
        q ∈ fs.sources ∧ ¬(q ∈ files ∧ q ∉ deleteFails) := by
  intro files
  induction files with
  | nil => intro fs n q; simp
  | cons p rest ih =>
    intro fs n q
    rw [List.foldl_cons]
    show q ∈ (rest.foldl (cleanup_step deleteFails)
      (cleanup_step deleteFails (fs, n) p)).1.sources ↔ _
    by_cases hex : p ∈ fs.sources
    · by_cases hdf : p ∈ deleteFails
      · have hstep : cleanup_step deleteFails (fs, n) p = (fs, n) := by
          simp [cleanup_step, hex, hdf]
        rw [hstep, ih]
        by_cases hqp : q = p
        · subst hqp
          simp [hdf]
        · simp [List.mem_cons, hqp]
      · have hstep : cleanup_step deleteFails (fs, n) p = (fs.removeSource p, n + 1) := by
          simp [cleanup_step, hex, hdf]
        rw [hstep, ih]
        by_cases hqp : q = p
        · subst hqp
          simp [hdf, hex]
        · simp [List.mem_cons, hqp]
    · have hstep : cleanup_step deleteFails (fs, n) p = (fs, n) := by
        simp [cleanup_step, hex]
      rw [hstep, ih]
      by_cases hqp : q = p
      · subst hqp
        simp [hex]
      · simp [List.mem_cons, hqp]

theorem cleanup_files_mem (deleteFails files : List String) (fs : FileSystem) (q : String) :
    q ∈ (cleanup_files deleteFails files fs).1.sources ↔
      q ∈ fs.sources ∧ ¬(q ∈ files ∧ q ∉ deleteFails) :=
  cleanup_fold_mem deleteFails files fs 0 q

theorem dupPathOf_ne (p ts : PathName) : dupPathOf p ts ≠ p := by
  intro h
  have hlen : (dupPathOf p ts).length = p.length := congrArg List.length h
  have hstrip : p.length - 4 ≤ (stripZipExt p).length ∧ (stripZipExt p).length ≤ p.length := by
    unfold stripZipExt
    split
    · rw [List.length_take]; omega
    · omega
  have h5 : dupPrefixL.length = 5 := rfl
  have h4 : zipExtL.length = 4 := rfl
  simp only [dupPathOf, List.length_append, List.length_cons, h5, h4] at hlen
  omega

theorem writePhase_incr_eq (zipSize : List ZipMember → Nat) (localtime6 : List Nat)
    (archivePath timestamp : PathName) (f : Faults) (units : List CompressedUnit)
    (fs : FileSystem) (mems : List ZipMember) (E : List String)
    (hmem : fs.getArchive archivePath = some mems)
    (hE : E = if f.indexReadFails then [] else existingNamesOf mems)
    (hdup : (units.filter fun u => decide (u.arcname ∈ E)) = [] ∨ f.dupOpenFails = false)
    (hprim : f.primaryOpenFails = false) :
    writePhase zipSize localtime6 archivePath timestamp true f units fs =
      (let newU := units.filter fun u => decide (u.arcname ∉ E)
       let dupU := units.filter fun u => decide (u.arcname ∈ E)
       let fs1 := if dupU = [] then fs
         else fs.setArchive (dupPathOf archivePath timestamp) (dupU.map (mkZipMember localtime6))
       let fs2 := if newU = [] then fs1
         else fs1.setArchive archivePath (mems ++ newU.map (mkZipMember localtime6))
       (fs2, Except.ok ⟨sumOriginal newU, sumCompressed newU,
         ratioPctOf (sumCompressed newU) (sumOriginal newU), 0⟩)) := by
  subst hE
  simp only [writePhase, hmem]
  set newU := units.filter fun u =>
    decide (u.arcname ∉ if f.indexReadFails then [] else existingNamesOf mems) with hnewU
  set dupU := units.filter fun u =>
    decide (u.arcname ∈ if f.indexReadFails then [] else existingNamesOf mems) with hdupU
  by_cases hd : dupU = []
  · simp only [hd, if_true]
    by_cases hn : newU = []
    · simp only [writeAndReport, hn, if_true, sizeAndStats, hmem]
    · simp only [writeAndReport, hn, if_false, hprim, Bool.false_eq_true, sizeAndStats,
        getArchive_setArchive_same, if_true]
  · have hdup2 : f.dupOpenFails = false := by
      rcases hdup with h | h
      · exact absurd h hd
      · exact h
    simp only [hd, if_false, hdup2, Bool.false_eq_true]
    by_cases hn : newU = []
    · have hget : (fs.setArchive (dupPathOf archivePath timestamp)
          (dupU.map (mkZipMember localtime6))).getArchive archivePath = some mems := by
        rw [getArchive_setArchive_ne _ _ _ _ (fun hc => dupPathOf_ne _ _ hc.symm), hmem]
      simp only [writeAndReport, hn, if_true, sizeAndStats, hget]
    · simp only [writeAndReport, hn, if_false, hprim, Bool.false_eq_true, sizeAndStats,
        getArchive_setArchive_same, if_true]

theorem writeAndReport_members (zipSize : List ZipMember → Nat) (localtime6 : List Nat)
    (archivePath : PathName) (incremental_mode : Bool)
    (appendTo : Option (List ZipMember)) (primaryOpenFails : Bool)
    (shadowedOriginal : Nat) (files_to_add : List CompressedUnit) (fs : FileSystem)
    (p2 : PathName) (mems2 : List ZipMember) (m : ZipMember)
    (happ : ∀ mems0, appendTo = some mems0 → fs.getArchive archivePath = some mems0)
    (h1 : (writeAndReport zipSize localtime6 archivePath incremental_mode appendTo
      primaryOpenFails shadowedOriginal files_to_add fs).1.getArchive p2 = some mems2)
    (h2 : m ∈ mems2) :
    (∃ u ∈ files_to_add, m = mkZipMember localtime6 u)
      ∨ (∃ oldm, fs.getArchive p2 = some oldm ∧ m ∈ oldm) := by
  cases appendTo with
  | none =>
    simp only [writeAndReport] at h1
    by_cases hf : files_to_add = []
    · rw [if_pos hf, sizeAndStats_fst] at h1
      exact Or.inr ⟨mems2, h1, h2⟩
    · rw [if_neg hf] at h1
      by_cases hp : primaryOpenFails = true
      · rw [if_pos hp] at h1
        exact Or.inr ⟨mems2, h1, h2⟩
      · rw [if_neg hp, sizeAndStats_fst] at h1
        by_cases hpp : p2 = archivePath
        · subst hpp
          rw [getArchive_setArchive_same] at h1
          injection h1 with h1
          rw [← h1] at h2
          obtain ⟨u, hu, hmu⟩ := List.mem_map.mp h2
          exact Or.inl ⟨u, hu, hmu.symm⟩
        · rw [getArchive_setArchive_ne _ _ _ _ hpp] at h1
          exact Or.inr ⟨mems2, h1, h2⟩
  | some mems0 =>
    simp only [writeAndReport] at h1
    by_cases hf : files_to_add = []
    · rw [if_pos hf, sizeAndStats_fst] at h1
      exact Or.inr ⟨mems2, h1, h2⟩
    · rw [if_neg hf] at h1
      by_cases hp : primaryOpenFails = true
      · rw [if_pos hp] at h1
        exact Or.inr ⟨mems2, h1, h2⟩
      · rw [if_neg hp, sizeAndStats_fst] at h1
        by_cases hpp : p2 = archivePath
        · subst hpp
          rw [getArchive_setArchive_same] at h1
          injection h1 with h1
          rw [← h1] at h2
          rcases List.mem_append.mp h2 with hold | hnew
          · exact Or.inr ⟨mems0, happ mems0 rfl, hold⟩
          · obtain ⟨u, hu, hmu⟩ := List.mem_map.mp hnew
            exact Or.inl ⟨u, hu, hmu.symm⟩
        · rw [getArchive_setArchive_ne _ _ _ _ hpp] at h1
          exact Or.inr ⟨mems2, h1, h2⟩

theorem writePhase_members (zipSize : List ZipMember → Nat) (localtime6 : List Nat)
    (archivePath timestamp : PathName) (incremental_mode : Bool) (f : Faults)
    (units : List CompressedUnit) (fs : FileSystem)
    (p2 : PathName) (mems2 : List ZipMember) (m : ZipMember)
    (h1 : (writePhase zipSize localtime6 archivePath timestamp incremental_mode f
      units fs).1.getArchive p2 = some mems2)
    (h2 : m ∈ mems2) :
    (∃ u ∈ units, m = mkZipMember localtime6 u)
      ∨ (∃ oldm, fs.getArchive p2 = some oldm ∧ m ∈ oldm) := by
  rcases hga : fs.getArchive archivePath with _ | mems
  all_goals cases incremental_mode
  case none.false | none.true | some.false =>
    first
    | (simp only [writePhase, hga] at h1
       rcases writeAndReport_members zipSize localtime6 archivePath _ none
           f.primaryOpenFails _ _ fs p2 mems2 m
           (fun mems0 h => Option.noConfusion h) h1 h2 with h | h
       · exact Or.inl h
       · exact Or.inr h)
  case some.true =>
    simp only [writePhase, hga] at h1
    set E := if f.indexReadFails then ([] : List String) else existingNamesOf mems with hE
    set newU := units.filter fun u => decide (u.arcname ∉ E) with hnewU
    set dupU := units.filter fun u => decide (u.arcname ∈ E) with hdupU
    have hnew_sub : ∀ u, u ∈ newU → u ∈ units := fun u hu => (List.mem_filter.mp hu).1
    have hdup_sub : ∀ u, u ∈ dupU → u ∈ units := fun u hu => (List.mem_filter.mp hu).1
    by_cases hd : dupU = []
    · rw [if_pos hd] at h1
      rcases writeAndReport_members zipSize localtime6 archivePath true (some mems)
          f.primaryOpenFails _ newU fs p2 mems2 m
          (fun mems0 h => by injection h with h; rw [← h]; exact hga) h1 h2 with h | h
      · obtain ⟨u, hu, hmu⟩ := h
        exact Or.inl ⟨u, hnew_sub u hu, hmu⟩
      · exact Or.inr h
    · rw [if_neg hd] at h1
      by_cases hdo : f.dupOpenFails = true
      · rw [if_pos hdo] at h1
        exact Or.inr ⟨mems2, h1, h2⟩
      · rw [if_neg hdo] at h1
        have hne : archivePath ≠ dupPathOf archivePath timestamp :=
          fun h => dupPathOf_ne archivePath timestamp h.symm
        rcases writeAndReport_members zipSize localtime6 archivePath true (some mems)
            f.primaryOpenFails _ newU
            (fs.setArchive (dupPathOf archivePath timestamp)
              (dupU.map (mkZipMember localtime6))) p2 mems2 m
            (fun mems0 h => by
              injection h with h
              rw [← h, getArchive_setArchive_ne _ _ _ _ hne]
              exact hga) h1 h2 with h | h
        · obtain ⟨u, hu, hmu⟩ := h
          exact Or.inl ⟨u, hnew_sub u hu, hmu⟩
        · obtain ⟨oldm, hold1, hold2⟩ := h
          by_cases hpp : p2 = dupPathOf archivePath timestamp
          · subst hpp
            rw [getArchive_setArchive_same] at hold1
            injection hold1 with hold1
            rw [← hold1] at hold2
            obtain ⟨u, hu, hmu⟩ := List.mem_map.mp hold2
            exact Or.inl ⟨u, hdup_sub u hu, hmu.symm⟩
          · rw [getArchive_setArchive_ne _ _ _ _ hpp] at hold1
            exact Or.inr ⟨oldm, hold1, hold2⟩

/-- The archive-writing step exactly as `create_archive` invokes it for a
non-empty file list: `create_archive_generic`'s write phase at the resolved
archive path. -/
def createArchiveWriteStep (zipSize : List ZipMember → Nat) (localtime6 : List Nat)
    (fmt archiveDate timestamp : PathName) (archive_mode : String) (f : Faults)
    (completions : List (String × Except String CompressedUnit)) (fs : FileSystem) :
    FileSystem × Except ArchErr RunStats :=
  writePhase zipSize localtime6 (resolvedPathOf fmt archiveDate archive_mode fs)
    timestamp (archive_mode == "incremental") f (collect_results completions) fs

/-- C1: if any exception is raised while opening or writing a container
(primary, duplicates, or the post-write size query), no source file from the
run's input list is deleted — the final file-system state keeps exactly the
sources it started with — and the exception propagates unchanged out of
`create_archive_generic` and `create_archive` to the top-level handler; the
deletion loop runs only after the whole write phase returned without an
exception. -/
theorem c1_write_failure_aborts_without_deletion
    (zipSize : List ZipMember → Nat) (localtime6 : List Nat) (files : List String)
    (fmt archiveDate timestamp : PathName) (archive_mode : String) (f : Faults)
    (completions : List (String × Except String CompressedUnit)) (fs : FileSystem)
    (e : ArchErr)
    (hfiles : files ≠ [])
    (herr : (createArchiveWriteStep zipSize localtime6 fmt archiveDate timestamp
      archive_mode f completions fs).2 = Except.error e) :
    create_archive zipSize localtime6 files fmt archiveDate timestamp archive_mode f
        completions fs
      = ((createArchiveWriteStep zipSize localtime6 fmt archiveDate timestamp
          archive_mode f completions fs).1, Except.error e)
    ∧ (createArchiveWriteStep zipSize localtime6 fmt archiveDate timestamp
        archive_mode f completions fs).1.sources = fs.sources := by
  have hw : createArchiveWriteStep zipSize localtime6 fmt archiveDate timestamp
      archive_mode f completions fs
    = ((createArchiveWriteStep zipSize localtime6 fmt archiveDate timestamp
        archive_mode f completions fs).1, Except.error e) := by
    rw [← herr]
  constructor
  · simp only [create_archive, if_neg hfiles, create_archive_generic]
    rw [show writePhase zipSize localtime6 (resolvedPathOf fmt archiveDate archive_mode fs)
        timestamp (archive_mode == "incremental") f (collect_results completions) fs
      = createArchiveWriteStep zipSize localtime6 fmt archiveDate timestamp
        archive_mode f completions fs from rfl, hw]
  · exact writePhase_fst_sources zipSize localtime6 _ timestamp _ f _ fs

/-- Witness for C1: a Scroll run whose primary-container open raises; the run
aborts with that exception and the source file list is untouched. -/
theorem c1_witness :
    ((["f1"] : List String) ≠ [])
    ∧ ((createArchiveWriteStep (fun _ => 0) [] "A".toList "D".toList [] "scroll"
        ⟨false, false, true, []⟩ [("f1", Except.ok ⟨"f1", [0], 1⟩)] ⟨[], ["f1"]⟩).2
      = Except.error ArchErr.primaryWrite)
    ∧ (create_archive (fun _ => 0) [] ["f1"] "A".toList "D".toList [] "scroll"
        ⟨false, false, true, []⟩ [("f1", Except.ok ⟨"f1", [0], 1⟩)] ⟨[], ["f1"]⟩
      = ((createArchiveWriteStep (fun _ => 0) [] "A".toList "D".toList [] "scroll"
          ⟨false, false, true, []⟩ [("f1", Except.ok ⟨"f1", [0], 1⟩)] ⟨[], ["f1"]⟩).1,
         Except.error ArchErr.primaryWrite))
    ∧ ((createArchiveWriteStep (fun _ => 0) [] "A".toList "D".toList [] "scroll"
        ⟨false, false, true, []⟩ [("f1", Except.ok ⟨"f1", [0], 1⟩)] ⟨[], ["f1"]⟩).1.sources
      = (⟨[], ["f1"]⟩ : FileSystem).sources) :=
  ⟨by decide, by rfl,
    (c1_write_failure_aborts_without_deletion (fun _ => 0) [] ["f1"] "A".toList "D".toList
      [] "scroll" ⟨false, false, true, []⟩ [("f1", Except.ok ⟨"f1", [0], 1⟩)] ⟨[], ["f1"]⟩
      ArchErr.primaryWrite (by decide) (by rfl)).1,
    (c1_write_failure_aborts_without_deletion (fun _ => 0) [] ["f1"] "A".toList "D".toList
      [] "scroll" ⟨false, false, true, []⟩ [("f1", Except.ok ⟨"f1", [0], 1⟩)] ⟨[], ["f1"]⟩
      ArchErr.primaryWrite (by decide) (by rfl)).2⟩

/-- C10: when every compression task failed and no file pre-exists at the
primary container path, nothing is written, the post-write size query raises,
the run aborts with that exception, and the deletion loop is never reached —
the file system (sources included) is returned unchanged. -/
theorem c10_all_failed_no_container_aborts
    (zipSize : List ZipMember → Nat) (localtime6 : List Nat)
    (archivePath timestamp : PathName) (incremental_mode : Bool) (f : Faults)
    (files : List String)
    (completions : List (String × Except String CompressedUnit)) (fs : FileSystem)
    (hall : ∀ pc ∈ completions, pc.2.toOption = none)
    (hnone : fs.getArchive archivePath = none) :
    create_archive_generic zipSize localtime6 archivePath timestamp incremental_mode f
      files completions fs = (fs, Except.error ArchErr.sizeQuery) := by
  have hcollect : collect_results completions = [] := by
    rw [collect_results_eq_filterMap, List.filterMap_eq_nil_iff]
    exact hall
  have hwp : writePhase zipSize localtime6 archivePath timestamp incremental_mode f [] fs
      = (fs, Except.error ArchErr.sizeQuery) := by
    cases incremental_mode <;>
      simp [writePhase, hnone, writeAndReport, sizeAndStats]
  simp only [create_archive_generic, hcollect, hwp]

/-- Witness for C10: one failed compression, empty archive directory; the run
ends in the size-query exception with the source file still present. -/
theorem c10_witness :
    (∀ pc ∈ [("f1", (Except.error "boom" : Except String CompressedUnit))],
      pc.2.toOption = none)
    ∧ ((⟨[], ["f1"]⟩ : FileSystem).getArchive "out.zip".toList = none)
    ∧ (create_archive_generic (fun _ => 0) [] "out.zip".toList [] false
        ⟨false, false, false, []⟩ ["f1"] [("f1", Except.error "boom")] ⟨[], ["f1"]⟩
      = (⟨[], ["f1"]⟩, Except.error ArchErr.sizeQuery)) :=
  ⟨by decide, by rfl,
    c10_all_failed_no_container_aborts (fun _ => 0) [] "out.zip".toList [] false
      ⟨false, false, false, []⟩ ["f1"] [("f1", Except.error "boom")] ⟨[], ["f1"]⟩
      (by decide) (by rfl)⟩

/-- C4: after a write phase that returned without an exception, the cleanup
step iterates the original input file list: every path in that list that still
exists is deleted unless its own removal raises — in particular paths whose
compression produced no unit — and one path's removal failure never prevents
the deletion of the others; paths outside the list are untouched. -/
theorem c4_cleanup_follows_original_file_list
    (zipSize : List ZipMember → Nat) (localtime6 : List Nat)
    (archivePath timestamp : PathName) (incremental_mode : Bool) (f : Faults)
    (files : List String)
    (completions : List (String × Except String CompressedUnit)) (fs : FileSystem)
    (stats : RunStats)
    (hok : (writePhase zipSize localtime6 archivePath timestamp incremental_mode f
      (collect_results completions) fs).2 = Except.ok stats) :
    (∀ q, q ∈ files → q ∈ fs.sources → q ∉ f.deleteFails →
      q ∉ (create_archive_generic zipSize localtime6 archivePath timestamp
        incremental_mode f files completions fs).1.sources)
    ∧ (∀ q, q ∉ files →
      (q ∈ (create_archive_generic zipSize localtime6 archivePath timestamp
          incremental_mode f files completions fs).1.sources ↔ q ∈ fs.sources)) := by
  have hw : writePhase zipSize localtime6 archivePath timestamp incremental_mode f
      (collect_results completions) fs
    = ((writePhase zipSize localtime6 archivePath timestamp incremental_mode f
        (collect_results completions) fs).1, Except.ok stats) := by
    rw [← hok]
  have hfst : (create_archive_generic zipSize localtime6 archivePath timestamp
      incremental_mode f files completions fs).1
    = (cleanup_files f.deleteFails files
        (writePhase zipSize localtime6 archivePath timestamp incremental_mode f
          (collect_results completions) fs).1).1 := by
    simp only [create_archive_generic]
    rw [hw]
  have hsrc := writePhase_fst_sources zipSize localtime6 archivePath timestamp
    incremental_mode f (collect_results completions) fs
  constructor
  · intro q hqf hqs hqd hmem
    rw [hfst, cleanup_files_mem, hsrc] at hmem
    exact hmem.2 ⟨hqf, hqd⟩
  · intro q hqf
    rw [hfst, cleanup_files_mem, hsrc]
    constructor
    · exact fun h => h.1
    · exact fun h => ⟨h, fun hc => hqf hc.1⟩

/-- Witness for C4: two source files, the first one's removal raises; after a
successful (empty) write into a pre-existing container, the second file is
deleted while paths outside the list are untouched. -/
theorem c4_witness :
    ((writePhase (fun _ => 0) [] "arc.zip".toList [] false ⟨false, false, false, ["f1"]⟩
        (collect_results []) ⟨[("arc.zip".toList, [])], ["f1", "f2", "keep"]⟩).2
      = Except.ok ⟨0, 0, ratioPctOf 0 0, 0⟩)
    ∧ ("f2" ∉ (create_archive_generic (fun _ => 0) [] "arc.zip".toList [] false
        ⟨false, false, false, ["f1"]⟩ ["f1", "f2"] []
        ⟨[("arc.zip".toList, [])], ["f1", "f2", "keep"]⟩).1.sources)
    ∧ ("keep" ∈ (create_archive_generic (fun _ => 0) [] "arc.zip".toList [] false
        ⟨false, false, false, ["f1"]⟩ ["f1", "f2"] []
        ⟨[("arc.zip".toList, [])], ["f1", "f2", "keep"]⟩).1.sources ↔
      "keep" ∈ (⟨[("arc.zip".toList, [])], ["f1", "f2", "keep"]⟩ : FileSystem).sources) :=
  ⟨by rfl,
    (c4_cleanup_follows_original_file_list (fun _ => 0) [] "arc.zip".toList [] false
      ⟨false, false, false, ["f1"]⟩ ["f1", "f2"] []
      ⟨[("arc.zip".toList, [])], ["f1", "f2", "keep"]⟩ ⟨0, 0, ratioPctOf 0 0, 0⟩
      (by rfl)).1 "f2" (by decide) (by decide) (by decide),
    (c4_cleanup_follows_original_file_list (fun _ => 0) [] "arc.zip".toList [] false
      ⟨false, false, false, ["f1"]⟩ ["f1", "f2"] []
      ⟨[("arc.zip".toList, [])], ["f1", "f2", "keep"]⟩ ⟨0, 0, ratioPctOf 0 0, 0⟩
      (by rfl)).2 "keep" (by decide)⟩

/-- C8: a compression task that failed is excluded from the collected
compressed-unit list and changes nothing else — the whole
`create_archive_generic` run (write phase, statistics and cleanup included)
is identical to the run without that completion — while every successful
task's unit is collected. -/
theorem c8_failed_task_is_isolated
    (zipSize : List ZipMember → Nat) (localtime6 : List Nat)
    (archivePath timestamp : PathName) (incremental_mode : Bool) (f : Faults)
    (files : List String) (fs : FileSystem)
    (xs ys : List (String × Except String CompressedUnit)) (p errmsg : String) :
    create_archive_generic zipSize localtime6 archivePath timestamp incremental_mode f
        files (xs ++ (p, Except.error errmsg) :: ys) fs
      = create_archive_generic zipSize localtime6 archivePath timestamp incremental_mode f
        files (xs ++ ys) fs
    ∧ ∀ q u, (q, Except.ok u) ∈ xs ++ (p, Except.error errmsg) :: ys →
        u ∈ collect_results (xs ++ (p, Except.error errmsg) :: ys) := by
  have hco : collect_results (xs ++ (p, Except.error errmsg) :: ys)
      = collect_results (xs ++ ys) := by
    rw [collect_results_eq_filterMap, collect_results_eq_filterMap]
    simp [Except.toOption]
  constructor
  · simp only [create_archive_generic, hco]
  · intro q u hmem
    rw [collect_results_eq_filterMap]
    exact List.mem_filterMap.mpr ⟨(q, Except.ok u), hmem, rfl⟩

/-- Witness for C8: dropping the failed completion leaves the run unchanged,
and the successful unit is collected. -/
theorem c8_witness :
    (create_archive_generic (fun _ => 0) [] "out.zip".toList [] false
        ⟨false, false, false, []⟩ ["f1", "f2"]
        ([("f1", Except.ok ⟨"f1", [0], 1⟩)] ++ ("f2", Except.error "io") :: [])
        ⟨[], ["f1", "f2"]⟩
      = create_archive_generic (fun _ => 0) [] "out.zip".toList [] false
        ⟨false, false, false, []⟩ ["f1", "f2"]
        ([("f1", Except.ok ⟨"f1", [0], 1⟩)] ++ [])
        ⟨[], ["f1", "f2"]⟩)
    ∧ (⟨"f1", [0], 1⟩ : CompressedUnit) ∈ collect_results
        ([("f1", Except.ok ⟨"f1", [0], 1⟩)] ++ ("f2", Except.error "io") :: []) :=
  ⟨(c8_failed_task_is_isolated (fun _ => 0) [] "out.zip".toList [] false
      ⟨false, false, false, []⟩ ["f1", "f2"] ⟨[], ["f1", "f2"]⟩
      [("f1", Except.ok ⟨"f1", [0], 1⟩)] [] "f2" "io").1,
    (c8_failed_task_is_isolated (fun _ => 0) [] "out.zip".toList [] false
      ⟨false, false, false, []⟩ ["f1", "f2"] ⟨[], ["f1", "f2"]⟩
      [("f1", Except.ok ⟨"f1", [0], 1⟩)] [] "f2" "io").2
      "f1" ⟨"f1", [0], 1⟩ (by decide)⟩

/-- C2: in Incremental mode with a readable existing container, with
`E = existingNamesOf mems` the member names read from it, exactly the units
whose arcname is not in `E` are appended to the primary container with the
pre-existing members kept as an unchanged prefix; a duplicates container is
created exactly when some unit's arcname is in `E` and then holds exactly
those units; when no unit is new the primary container is not opened for
writing (the run does not even depend on whether that open would fail); and
the write phase returns without an exception. -/
theorem c2_incremental_partition
    (zipSize : List ZipMember → Nat) (localtime6 : List Nat)
    (archivePath timestamp : PathName) (f : Faults)
    (units : List CompressedUnit) (fs : FileSystem) (mems : List ZipMember)
    (hmem : fs.getArchive archivePath = some mems)
    (hidx : f.indexReadFails = false)
    (hdup : f.dupOpenFails = false)
    (hprim : f.primaryOpenFails = false) :
    ((writePhase zipSize localtime6 archivePath timestamp true f units fs).1.getArchive
        archivePath
      = some (mems ++ (units.filter fun u =>
          decide (u.arcname ∉ existingNamesOf mems)).map (mkZipMember localtime6)))
    ∧ ((units.filter fun u => decide (u.arcname ∈ existingNamesOf mems)) ≠ [] →
      (writePhase zipSize localtime6 archivePath timestamp true f units fs).1.getArchive
          (dupPathOf archivePath timestamp)
        = some ((units.filter fun u =>
            decide (u.arcname ∈ existingNamesOf mems)).map (mkZipMember localtime6)))
    ∧ ((units.filter fun u => decide (u.arcname ∈ existingNamesOf mems)) = [] →
      ∀ q, q ≠ archivePath →
        (writePhase zipSize localtime6 archivePath timestamp true f units fs).1.getArchive q
          = fs.getArchive q)
    ∧ ((units.filter fun u => decide (u.arcname ∉ existingNamesOf mems)) = [] →
      writePhase zipSize localtime6 archivePath timestamp true
          { f with primaryOpenFails := true } units fs
        = writePhase zipSize localtime6 archivePath timestamp true f units fs)
    ∧ (∃ stats, (writePhase zipSize localtime6 archivePath timestamp true f units fs).2
        = Except.ok stats) := by
  have heq := writePhase_incr_eq zipSize localtime6 archivePath timestamp f units fs mems
    (existingNamesOf mems) hmem (by rw [hidx]; rfl) (Or.inr hdup) hprim
  set newU := units.filter fun u => decide (u.arcname ∉ existingNamesOf mems) with hnewU
  set dupU := units.filter fun u => decide (u.arcname ∈ existingNamesOf mems) with hdupU
  have hdp_ne : dupPathOf archivePath timestamp ≠ archivePath := dupPathOf_ne _ _
  have hap_ne : archivePath ≠ dupPathOf archivePath timestamp := fun h => hdp_ne h.symm
  refine ⟨?_, ?_, ?_, ?_, ?_⟩
  · rw [heq]
    by_cases hn : newU = []
    · by_cases hd : dupU = []
      · simp only [hn, hd, if_true, hmem, List.map_nil, List.append_nil]
      · simp only [hn, hd, if_true, if_false]
        rw [getArchive_setArchive_ne _ _ _ _ hap_ne, hmem]
        simp [hn]
    · simp only [hn, if_false, getArchive_setArchive_same]
  · intro hd
    rw [heq]
    simp only [hd, if_false]
    by_cases hn : newU = []
    · simp only [hn, if_true, getArchive_setArchive_same]
    · simp only [hn, if_false]
      rw [getArchive_setArchive_ne _ _ _ _ hdp_ne, getArchive_setArchive_same]
  · intro hd q hq
    rw [heq]
    simp only [hd, if_true]
    by_cases hn : newU = []
    · simp only [hn, if_true]
    · simp only [hn, if_false]
      exact getArchive_setArchive_ne _ _ _ _ hq
  · intro hn
    have hn2 : units.filter (fun u => decide (u.arcname ∉ existingNamesOf mems)) = [] := hn
    simp only [writePhase, hmem, hidx, Bool.false_eq_true, if_false]
    by_cases hd : units.filter (fun u => decide (u.arcname ∈ existingNamesOf mems)) = []
    · rw [if_pos hd, if_pos hd]
      simp only [writeAndReport]
      rw [if_pos hn2, if_pos hn2]
    · rw [if_neg hd, if_neg hd]
      by_cases hdo : f.dupOpenFails = true
      · rw [if_pos hdo, if_pos hdo]
      · rw [if_neg hdo, if_neg hdo]
        simp only [writeAndReport]
        rw [if_pos hn2, if_pos hn2]
  · rw [heq]
    exact ⟨_, rfl⟩

/-- Witness for C2: an existing container with members `A`, `B` and a batch
with units named `B`, `C`: the primary gains exactly `C` after the untouched
prefix, and the duplicates container holds exactly `B`. -/
theorem c2_witness :
    ((⟨[("arc.zip".toList,
        [mkZipMember [] ⟨"A", [1], 1⟩, mkZipMember [] ⟨"B", [2], 1⟩])], []⟩ :
          FileSystem).getArchive "arc.zip".toList
      = some [mkZipMember [] ⟨"A", [1], 1⟩, mkZipMember [] ⟨"B", [2], 1⟩])
    ∧ ((writePhase (fun _ => 0) [] "arc.zip".toList "T".toList true
        ⟨false, false, false, []⟩ [⟨"B", [9], 3⟩, ⟨"C", [7], 2⟩]
        ⟨[("arc.zip".toList,
          [mkZipMember [] ⟨"A", [1], 1⟩, mkZipMember [] ⟨"B", [2], 1⟩])], []⟩).1.getArchive
          "arc.zip".toList
      = some ([mkZipMember [] ⟨"A", [1], 1⟩, mkZipMember [] ⟨"B", [2], 1⟩]
          ++ ([⟨"B", [9], 3⟩, ⟨"C", [7], 2⟩].filter fun u => decide (u.arcname ∉
            existingNamesOf [mkZipMember [] ⟨"A", [1], 1⟩, mkZipMember [] ⟨"B", [2], 1⟩])).map
              (mkZipMember [])))
    ∧ (([⟨"B", [9], 3⟩, ⟨"C", [7], 2⟩].filter fun u => decide ((u : CompressedUnit).arcname ∈
          existingNamesOf [mkZipMember [] ⟨"A", [1], 1⟩, mkZipMember [] ⟨"B", [2], 1⟩]))
        = [⟨"B", [9], 3⟩]) :=
  ⟨by rfl,
    (c2_incremental_partition (fun _ => 0) [] "arc.zip".toList "T".toList
      ⟨false, false, false, []⟩ [⟨"B", [9], 3⟩, ⟨"C", [7], 2⟩]
      ⟨[("arc.zip".toList,
        [mkZipMember [] ⟨"A", [1], 1⟩, mkZipMember [] ⟨"B", [2], 1⟩])], []⟩
      [mkZipMember [] ⟨"A", [1], 1⟩, mkZipMember [] ⟨"B", [2], 1⟩]
      (by rfl) rfl rfl rfl).1,
    by decide⟩

/-- C7: when reading the existing primary container's index raises, the error
is caught and the member-name set degrades to empty, so every unit is
classified as new and appended after the untouched existing members, no
duplicates container is created (nothing outside the primary path changes, so
the duplicate-open fault is never exercised), and the run proceeds without
aborting: the write phase returns a success. -/
theorem c7_index_read_fails_soft
    (zipSize : List ZipMember → Nat) (localtime6 : List Nat)
    (archivePath timestamp : PathName) (f : Faults)
    (units : List CompressedUnit) (fs : FileSystem) (mems : List ZipMember)
    (hmem : fs.getArchive archivePath = some mems)
    (hidx : f.indexReadFails = true)
    (hprim : f.primaryOpenFails = false) :
    ((writePhase zipSize localtime6 archivePath timestamp true f units fs).1.getArchive
        archivePath = some (mems ++ units.map (mkZipMember localtime6)))
    ∧ (∀ q, q ≠ archivePath →
      (writePhase zipSize localtime6 archivePath timestamp true f units fs).1.getArchive q
        = fs.getArchive q)
    ∧ (∃ stats, (writePhase zipSize localtime6 archivePath timestamp true f units fs).2
        = Except.ok stats) := by
  have hfilter_new : (units.filter fun u => decide (u.arcname ∉ ([] : List String)))
      = units := by
    simp
  have hfilter_dup : (units.filter fun u => decide (u.arcname ∈ ([] : List String)))
      = [] := by
    simp
  have heq := writePhase_incr_eq zipSize localtime6 archivePath timestamp f units fs mems
    [] hmem (by rw [hidx]; rfl) (Or.inl hfilter_dup) hprim
  rw [hfilter_new, hfilter_dup] at heq
  simp only [if_true] at heq
  refine ⟨?_, ?_, ?_⟩
  · rw [heq]
    by_cases hu : units = []
    · simp only [hu, if_true, hmem, List.map_nil, List.append_nil]
    · simp only [hu, if_false, getArchive_setArchive_same]
  · intro q hq
    rw [heq]
    by_cases hu : units = []
    · simp only [hu, if_true]
    · simp only [hu, if_false]
      exact getArchive_setArchive_ne _ _ _ _ hq
  · rw [heq]
    exact ⟨_, rfl⟩

/-- Witness for C7: index read fails over an existing container holding `A`
while the batch has a unit also named `A`; it is still appended (classified
new) and the run succeeds. -/
theorem c7_witness :
    ((⟨[("arc.zip".toList, [mkZipMember [] ⟨"A", [1], 1⟩])], []⟩ :
          FileSystem).getArchive "arc.zip".toList
      = some [mkZipMember [] ⟨"A", [1], 1⟩])
    ∧ ((writePhase (fun _ => 0) [] "arc.zip".toList "T".toList true
        ⟨true, true, false, []⟩ [⟨"A", [9], 3⟩]
        ⟨[("arc.zip".toList, [mkZipMember [] ⟨"A", [1], 1⟩])], []⟩).1.getArchive
          "arc.zip".toList
      = some ([mkZipMember [] ⟨"A", [1], 1⟩] ++ [⟨"A", [9], 3⟩].map (mkZipMember [])))
    ∧ (∃ stats, (writePhase (fun _ => 0) [] "arc.zip".toList "T".toList true
        ⟨true, true, false, []⟩ [⟨"A", [9], 3⟩]
        ⟨[("arc.zip".toList, [mkZipMember [] ⟨"A", [1], 1⟩])], []⟩).2
      = Except.ok stats) :=
  ⟨by rfl,
    (c7_index_read_fails_soft (fun _ => 0) [] "arc.zip".toList "T".toList
      ⟨true, true, false, []⟩ [⟨"A", [9], 3⟩]
      ⟨[("arc.zip".toList, [mkZipMember [] ⟨"A", [1], 1⟩])], []⟩
      [mkZipMember [] ⟨"A", [1], 1⟩] (by rfl) rfl rfl).1,
    (c7_index_read_fails_soft (fun _ => 0) [] "arc.zip".toList "T".toList
      ⟨true, true, false, []⟩ [⟨"A", [9], 3⟩]
      ⟨[("arc.zip".toList, [mkZipMember [] ⟨"A", [1], 1⟩])], []⟩
      [mkZipMember [] ⟨"A", [1], 1⟩] (by rfl) rfl rfl).2.2⟩

/-- C3 (code bug): the program builds each member's `ZipInfo` with
`file_size = original_size` (lines 486/504), but CPython's `writestr`
overwrites `file_size` with the payload length before writing, so the stored
member's uncompressed-size field equals the post-compression length, not the
pre-compression one.  At the failing input — one 2-byte file compressed to a
3-byte payload, written in Scroll mode — the container holds exactly that
member: STORED, payload the compressed bytes, `compress_size = 3` as claimed,
but `file_size = 3` where the claim (and the program's own assignment,
visible in `programZipInfo`) requires 2. -/
theorem c3_file_size_clobbered_by_writestr :
    ((writePhase (fun _ => 0) [] "out.zip".toList [] false ⟨false, false, false, []⟩
        ([("a", [5, 6])].filterMap fun nd =>
          (compress_file "bzip2" (fun d => d) (fun d => d ++ [0]) nd.1 nd.2).toOption)
        ⟨[], []⟩).1.getArchive "out.zip".toList
      = some [mkZipMember [] ⟨"a", [5, 6, 0], 2⟩])
    ∧ (mkZipMember [] ⟨"a", [5, 6, 0], 2⟩).info.compress_type = ZIP_STORED
    ∧ (mkZipMember [] ⟨"a", [5, 6, 0], 2⟩).payload = [5, 6, 0]
    ∧ (mkZipMember [] ⟨"a", [5, 6, 0], 2⟩).info.compress_size = 3
    ∧ (programZipInfo [] ⟨"a", [5, 6, 0], 2⟩).file_size = 2
    ∧ (mkZipMember [] ⟨"a", [5, 6, 0], 2⟩).info.file_size = 3
    ∧ (mkZipMember [] ⟨"a", [5, 6, 0], 2⟩).info.file_size ≠ 2 :=
  ⟨rfl, rfl, rfl, rfl, rfl, rfl, by decide⟩

/-- C5: the Scroll-mode archive name is the template-derived base name
(`.zip` appended when missing, the date substituted for the `\x7bdate\x7d`
placeholder or prefixed when there is none) with the first free numeric
suffix: the resolved name is candidate `k` — the base name for `k = 0`,
`stem_k.ext` for `k ≥ 1` — where every candidate before `k` already exists
and candidate `k` does not, so the resolved path never collides with an
existing container; and this is exactly the path `create_archive` uses in
Scroll mode. -/
theorem c5_scroll_name_resolution (fmt archiveDate : PathName)
    (existing : List PathName) :
    (∃ k, resolve_scroll_name fmt archiveDate existing
        = scroll_candidate (scroll_base_name fmt archiveDate) k
      ∧ scroll_candidate (scroll_base_name fmt archiveDate) k ∉ existing
      ∧ ∀ j, j < k → scroll_candidate (scroll_base_name fmt archiveDate) j ∈ existing)
    ∧ ∀ fs : FileSystem, resolvedPathOf fmt archiveDate "scroll" fs
        = resolve_scroll_name fmt archiveDate (fs.archives.map fun e => e.1) := by
  constructor
  · obtain ⟨j, hj, hfree⟩ := exists_free_candidate existing (scroll_base_name fmt archiveDate)
    obtain ⟨m, hm1, hm2, _, hm4⟩ := find_free_name_spec existing
      (scroll_base_name fmt archiveDate) (existing.length + 2) 0
      ⟨j, hj, by simpa using hfree⟩
    exact ⟨m, hm1, hm2, fun i hi => hm4 i (Nat.zero_le i) hi⟩
  · intro fs
    rfl

/-- Witness for C5: with the first run's container `D_A.zip` already present,
the second run resolves to a fresh name, so nothing is overwritten. -/
theorem c5_witness :
    resolve_scroll_name "A".toList "D".toList ["D_A.zip".toList]
      ∉ ["D_A.zip".toList] := by
  obtain ⟨⟨k, h1, h2, _⟩, _⟩ :=
    c5_scroll_name_resolution "A".toList "D".toList ["D_A.zip".toList]
  rw [h1]
  exact h2

/-- C6 counterexample: a run with an unsupported compression algorithm and
log saving enabled exits with code 1, but a log file has already been
created by logger setup — so "performs no side effects (no file is created,
modified, or deleted)" is false as stated. -/
theorem c6_counterexample_log_file_created :
    (main_validation_model "zstd" 9 "scroll" 1 true).2 = Except.error 1
    ∧ (main_validation_model "zstd" 9 "scroll" 1 true).1.logFileCreated = true :=
  ⟨rfl, rfl⟩

/-- C6 (amended): every validation failure of the effective run parameters —
unsupported algorithm, level outside 1-9, unknown mode, or worker count
below 1 — terminates the run immediately with exit code 1 and performs none
of the pipeline's side effects (no gui-file deletion, no error-folder
removal, no archive step, hence no file in the target or archive directories
is created, modified or deleted); the only prior file-system effect is
logger setup, which has created a log file exactly when `save_logs` is
enabled. -/
theorem c6_validation_failure_exits_one_without_pipeline_effects
    (compression_algorithm : String) (compression_level : Int)
    (archive_mode : String) (max_workers : Int) (save_logs : Bool)
    (hbad : validate_compression_algorithm compression_algorithm = false
      ∨ validate_compression_level compression_level = false
      ∨ validate_archive_mode archive_mode = false
      ∨ max_workers < 1) :
    main_validation_model compression_algorithm compression_level archive_mode
        max_workers save_logs
      = (⟨save_logs, false, false, false⟩, Except.error 1) := by
  unfold main_validation_model
  cases hva : validate_compression_algorithm compression_algorithm
  · simp [hva]
  · cases hvl : validate_compression_level compression_level
    · simp [hva, hvl]
    · cases hvm : validate_archive_mode archive_mode
      · simp [hva, hvl, hvm]
      · have hw : max_workers < 1 := by
          rcases hbad with h | h | h | h
          · rw [hva] at h; exact absurd h (by simp)
          · rw [hvl] at h; exact absurd h (by simp)
          · rw [hvm] at h; exact absurd h (by simp)
          · exact h
        simp [hva, hvl, hvm, hw]

/-- Witness for C6 (amended): a worker count of 0 exits with code 1 and no
pipeline side effect; with log saving disabled not even a log file exists. -/
theorem c6_witness :
    main_validation_model "lzma" 9 "scroll" 0 false
      = (⟨false, false, false, false⟩, Except.error 1) :=
  c6_validation_failure_exits_one_without_pipeline_effects "lzma" 9 "scroll" 0 false
    (Or.inr (Or.inr (Or.inr (by norm_num))))

/-- C9 (code bug, Scroll branch): with two successfully compressed units of
original sizes 100 and 1 and total payload 11 bytes, the reported figures are
`reportedOriginalSize = 1` — the Python `for arcname, compressed_data,
original_size in files_to_add:` loop on line 501 overwrites the batch total
computed on line 435, so line 525 divides by the last unit's original size —
and the reported ratio is `ratioPctOf 11 1 = -1000%`, not the whole-batch
`ratioPctOf 11 101` the claim and line 435 intend (the batch total is 101). -/
theorem c9_scroll_ratio_uses_shadowed_original :
    ((create_archive_generic
        (fun ms => (ms.map fun m => m.info.compress_size).foldl (· + ·) 0)
        [] "out.zip".toList [] false ⟨false, false, false, []⟩ []
        [("a", Except.ok ⟨"a", List.replicate 10 0, 100⟩), ("b", Except.ok ⟨"b", [0], 1⟩)]
        ⟨[], []⟩).2
      = Except.ok ⟨1, 11, ratioPctOf 11 1, 0⟩)
    ∧ sumOriginal (collect_results
        [("a", Except.ok ⟨"a", List.replicate 10 0, 100⟩), ("b", Except.ok ⟨"b", [0], 1⟩)])
      = 101
    ∧ ratioPctOf 11 1 ≠ ratioPctOf 11 101 := by
  refine ⟨rfl, by decide, ?_⟩
  simp only [ratioPctOf]
  norm_num

end ALASLogsArchive
